import Mathlib

/-!
# Verification of the openclaw-channel-dingtalk scheduling core

This file is a shallow embedding, in Lean 4, of the time-zone conversion
primitives, natural-language time extraction and due-ness decision logic of
the `openclaw-channel-dingtalk` plugin, together with theorems settling the
frozen specification claims about them.

Machine integers of the source (JS `number` used as integral millisecond
timestamps and calendar fields) are modelled as `Int`; all values involved
stay far below 2^53, where JS number arithmetic on integers is exact.
Division appearing in ECMAScript date arithmetic is floor division, which
for a positive divisor coincides with `Int` division `/` (`Int.ediv`).
-/

namespace Dingtalk

/-! ## Civil (proleptic Gregorian) calendar arithmetic

Modelled from the spec: the source delegates calendar/instant conversions to
the ECMAScript `Date` platform (`Date.UTC`, `getUTC*`, `Intl.DateTimeFormat`),
which is not part of the repository.  A civil date is encoded as the count of
days since 1970-01-01; the conversions below implement the proleptic
Gregorian calendar exactly as ECMAScript's `MakeDay` / `YearFromTime` /
`MonthFromTime` family specifies it, in era-based floor-division form.
-/

/-- A calendar date: year, month (1-12 when normalized), day (1-based). -/
structure Ymd where
  year : Int
  month : Int
  day : Int
deriving DecidableEq, Repr

/-- Whether `y` is a leap year in the proleptic Gregorian calendar. -/
def isLeapYear (y : Int) : Bool :=
  (y % 4 == 0 && y % 100 != 0) || y % 400 == 0

/-- Number of days in month `m` of year `y` (for `m` in 1..12). -/
def daysInMonth (y m : Int) : Int :=
  if m = 2 then (if isLeapYear y then 29 else 28)
  else if m = 4 ∨ m = 6 ∨ m = 9 ∨ m = 11 then 30
  else 31

/-- Day count since 1970-01-01 of the civil date `(y, m, d)`.
Valid for any year, any `m` in 1..12, and arbitrary `d` (day overflow is
additive, as in ECMAScript `MakeDay`). -/
def daysFromCivil (y m d : Int) : Int :=
  let y' := if m ≤ 2 then y - 1 else y
  let era := y' / 400
  let yoe := y' - era * 400
  let doy := (153 * (if 2 < m then m - 3 else m + 9) + 2) / 5 + d - 1
  let doe := yoe * 365 + yoe / 4 - yoe / 100 + doy
  era * 146097 + doe - 719468

/-- Civil date of the day numbered `z` (days since 1970-01-01). -/
def civilFromDays (z : Int) : Ymd :=
  let zz := z + 719468
  let era := zz / 146097
  let doe := zz - era * 146097
  let yoe := (doe - doe / 1460 + doe / 36524 - doe / 146096) / 365
  let y := yoe + era * 400
  let doy := doe - (365 * yoe + yoe / 4 - yoe / 100)
  let mp := (5 * doy + 2) / 153
  let d := doy - (153 * mp + 2) / 5 + 1
  let m := if mp < 10 then mp + 3 else mp - 9
  ⟨if m ≤ 2 then y + 1 else y, m, d⟩

/-- Days-before-year-of-era function: number of days from the start of a
400-year era to the start of (March-based) year-of-era `y`. -/
def sY (y : Int) : Int := 365 * y + y / 4 - y / 100

/-- The adjusted day-of-era count whose division by 365 recovers the
year-of-era in `civilFromDays`. -/
def gAdj (d : Int) : Int := d - d / 1460 + d / 36524 - d / 146096

theorem ediv_by_146096 (a : Int) : a / 146096 = (a / 36524) / 4 := by
  generalize hq : a / 36524 = q
  omega

theorem gAdj_mono {a b : Int} (h : a ≤ b) : gAdj a ≤ gAdj b := by
  unfold gAdj
  rw [ediv_by_146096 a, ediv_by_146096 b]
  generalize hqa : a / 36524 = qa
  generalize hqb : b / 36524 = qb
  omega

set_option maxRecDepth 100000 in
theorem boundary_lo_nat : ∀ y : Nat, y < 400 → 365 * (y : Int) ≤ gAdj (sY (y : Int)) := by decide

set_option maxRecDepth 100000 in
theorem boundary_hi_nat : ∀ y : Nat, y < 401 → 1 ≤ y → gAdj (sY (y : Int) - 1) < 365 * (y : Int) := by
  decide

theorem boundary_lo (y : Int) (h0 : 0 ≤ y) (h1 : y ≤ 399) : 365 * y ≤ gAdj (sY y) := by
  have h := boundary_lo_nat y.toNat (by omega)
  rwa [Int.toNat_of_nonneg h0] at h

theorem boundary_hi (y : Int) (h0 : 1 ≤ y) (h1 : y ≤ 400) : gAdj (sY y - 1) < 365 * y := by
  have h := boundary_hi_nat y.toNat (by omega) (by omega)
  rwa [Int.toNat_of_nonneg (by omega)] at h

/-- Bracketing of the year-of-era recovery: for a day-of-era `doe`, the value
`gAdj doe / 365` is a year-of-era whose `sY` start lies at most 365 days
before `doe`. -/
theorem yoeF_bracket (doe : Int) (h0 : 0 ≤ doe) (h1 : doe ≤ 146096) :
    0 ≤ gAdj doe / 365 ∧ gAdj doe / 365 ≤ 399 ∧
    sY (gAdj doe / 365) ≤ doe ∧ doe - sY (gAdj doe / 365) ≤ 365 := by
  have hg0 : 0 ≤ gAdj doe := by unfold gAdj; omega
  have hgle : gAdj doe ≤ 145999 := by
    have hm := gAdj_mono h1
    have h146 : gAdj 146096 = 145999 := by decide
    omega
  have hy0 : 0 ≤ gAdj doe / 365 := by omega
  have hy399 : gAdj doe / 365 ≤ 399 := by omega
  refine ⟨hy0, hy399, ?_, ?_⟩
  · by_cases hz : gAdj doe / 365 = 0
    · rw [hz]
      simpa [sY] using h0
    · by_contra hlt
      push_neg at hlt
      have hmono := gAdj_mono (show doe ≤ sY (gAdj doe / 365) - 1 by omega)
      have hbh := boundary_hi (gAdj doe / 365) (by omega) (by omega)
      omega
  · by_cases h398 : gAdj doe / 365 ≤ 398
    · have hstep : sY (gAdj doe / 365 + 1) - sY (gAdj doe / 365) ≤ 366 := by
        unfold sY
        generalize hyv : gAdj doe / 365 = yv
        omega
      by_contra hgt
      push_neg at hgt
      have hge : sY (gAdj doe / 365 + 1) ≤ doe := by omega
      have hmono := gAdj_mono hge
      have hbl := boundary_lo (gAdj doe / 365 + 1) (by omega) (by omega)
      omega
    · have h399 : gAdj doe / 365 = 399 := by omega
      rw [h399]
      have hc : sY 399 = 145731 := by decide
      omega

/-- Inverse form of the bracketing: starting from a year-of-era `yoe` and a
day-of-year `doy` that is in range for that year, `gAdj` recovers `yoe`. -/
theorem yoeF_inv (yoe doy : Int) (h0 : 0 ≤ yoe) (h1 : yoe ≤ 399) (hd0 : 0 ≤ doy)
    (hd : doy ≤ 364 ∨ (doy = 365 ∧ (yoe = 399 ∨ ((yoe + 1) % 4 = 0 ∧ (yoe + 1) % 100 ≠ 0)))) :
    gAdj (sY yoe + doy) / 365 = yoe := by
  have hlow : 365 * yoe ≤ gAdj (sY yoe + doy) := by
    have hm := gAdj_mono (show sY yoe ≤ sY yoe + doy by omega)
    have hb := boundary_lo yoe h0 h1
    omega
  have hhigh : gAdj (sY yoe + doy) < 365 * yoe + 365 := by
    by_cases h398 : yoe ≤ 398
    · have hstep : 365 + (if (yoe + 1) % 4 = 0 ∧ (yoe + 1) % 100 ≠ 0 then 1 else 0)
          ≤ sY (yoe + 1) - sY yoe := by
        unfold sY
        split_ifs <;> omega
      have hle : sY yoe + doy ≤ sY (yoe + 1) - 1 := by
        split_ifs at hstep <;> omega
      have hm := gAdj_mono hle
      have hb := boundary_hi (yoe + 1) (by omega) (by omega)
      omega
    · have h399 : yoe = 399 := by omega
      subst h399
      have hc : sY 399 = 145731 := by decide
      have hle : sY 399 + doy ≤ 146096 := by omega
      have hm := gAdj_mono hle
      have h146 : gAdj 146096 = 145999 := by decide
      omega
  omega

/-- Core reconstruction: feeding the components produced by `civilFromDays`
back through `daysFromCivil` recovers the day number. -/
theorem reconstruct_core (era doe yoe doy mp : Int)
    (hyoe0 : 0 ≤ yoe) (hyoe1 : yoe ≤ 399)
    (hlo : 365 * yoe + yoe / 4 - yoe / 100 ≤ doe)
    (hhi : doe - (365 * yoe + yoe / 4 - yoe / 100) ≤ 365)
    (hdoy : doy = doe - (365 * yoe + yoe / 4 - yoe / 100))
    (hmp : mp = (5 * doy + 2) / 153) :
    daysFromCivil
      (if (if mp < 10 then mp + 3 else mp - 9) ≤ 2 then yoe + era * 400 + 1 else yoe + era * 400)
      (if mp < 10 then mp + 3 else mp - 9)
      (doy - (153 * mp + 2) / 5 + 1)
    = era * 146097 + doe - 719468 := by
  have hdoyb : 0 ≤ doy ∧ doy ≤ 365 := by omega
  have hmpb : 0 ≤ mp ∧ mp ≤ 11 := by omega
  unfold daysFromCivil
  by_cases h10 : mp < 10
  · have hm2 : ¬ (mp + 3 ≤ 2) := by omega
    have hm2' : 2 < mp + 3 := by omega
    simp only [if_pos h10, if_neg hm2, if_pos hm2']
    have e1 : (yoe + era * 400) / 400 = era := by omega
    rw [e1]
    have e2 : yoe + era * 400 - era * 400 = yoe := by ring
    rw [e2]
    have e3 : mp + 3 - 3 = mp := by ring
    rw [e3]
    omega
  · have hm2 : mp - 9 ≤ 2 := by omega
    have hm2' : ¬ (2 < mp - 9) := by omega
    simp only [if_neg h10, if_pos hm2, if_neg hm2']
    have e1 : (yoe + era * 400 + 1 - 1) / 400 = era := by omega
    rw [e1]
    have e2 : yoe + era * 400 + 1 - 1 - era * 400 = yoe := by ring
    rw [e2]
    have e3 : mp - 9 + 9 = mp := by ring
    rw [e3]
    omega

/-- `daysFromCivil` is a left inverse of `civilFromDays`: converting a day
number to a civil date and back is the identity, for every `z : Int`. -/
theorem daysFromCivil_civilFromDays (z : Int) :
    daysFromCivil (civilFromDays z).year (civilFromDays z).month (civilFromDays z).day = z := by
  have h0 : 0 ≤ z + 719468 - (z + 719468) / 146097 * 146097 := by omega
  have h1 : z + 719468 - (z + 719468) / 146097 * 146097 ≤ 146096 := by omega
  have hb := yoeF_bracket _ h0 h1
  unfold gAdj sY at hb
  obtain ⟨hy0, hy1, hlo, hhi⟩ := hb
  have hcore := reconstruct_core ((z + 719468) / 146097) _ _ _ _ hy0 hy1 hlo hhi rfl rfl
  calc daysFromCivil (civilFromDays z).year (civilFromDays z).month (civilFromDays z).day
      = (z + 719468) / 146097 * 146097 +
        (z + 719468 - (z + 719468) / 146097 * 146097) - 719468 := hcore
    _ = z := by omega

/-- The civil date produced by `civilFromDays` always has a month in 1..12
and a day in 1..31. -/
theorem civilFromDays_valid (z : Int) :
    1 ≤ (civilFromDays z).month ∧ (civilFromDays z).month ≤ 12 ∧
    1 ≤ (civilFromDays z).day ∧ (civilFromDays z).day ≤ 31 := by
  have h0 : 0 ≤ z + 719468 - (z + 719468) / 146097 * 146097 := by omega
  have h1 : z + 719468 - (z + 719468) / 146097 * 146097 ≤ 146096 := by omega
  have hb := yoeF_bracket _ h0 h1
  unfold gAdj sY at hb
  obtain ⟨hy0, hy1, hlo, hhi⟩ := hb
  simp only [civilFromDays]
  split_ifs <;> omega

/-- Surgical unfolding of `civilFromDays` in terms of characterizing
equations for its intermediate quantities. -/
theorem civil_core (z era doe yoe doy mp dd : Int)
    (hz : z + 719468 = era * 146097 + doe)
    (h0 : 0 ≤ doe) (h1 : doe ≤ 146096)
    (hyoe : (doe - doe / 1460 + doe / 36524 - doe / 146096) / 365 = yoe)
    (hdoy : doe - (365 * yoe + yoe / 4 - yoe / 100) = doy)
    (hmp : (5 * doy + 2) / 153 = mp)
    (hdd : doy - (153 * mp + 2) / 5 + 1 = dd) :
    civilFromDays z =
      ⟨if (if mp < 10 then mp + 3 else mp - 9) ≤ 2 then yoe + era * 400 + 1 else yoe + era * 400,
       if mp < 10 then mp + 3 else mp - 9, dd⟩ := by
  simp only [civilFromDays]
  rw [hz]
  have e1 : (era * 146097 + doe) / 146097 = era := by omega
  rw [e1]
  have e2 : era * 146097 + doe - era * 146097 = doe := by ring
  rw [e2, hyoe, hdoy, hmp, hdd]

/-- Recovery of the shifted month index from the day-of-year it generates. -/
theorem mp_recover (mp d : Int) (h0 : 0 ≤ mp) (h1 : mp ≤ 11) (hd1 : 1 ≤ d)
    (hd31 : d ≤ 31) (hfeb : mp = 11 → d ≤ 29)
    (h30 : mp = 1 ∨ mp = 3 ∨ mp = 6 ∨ mp = 8 → d ≤ 30) :
    (5 * ((153 * mp + 2) / 5 + d - 1) + 2) / 153 = mp := by
  interval_cases mp <;> omega

/-- `civilFromDays` is a right inverse of `daysFromCivil` on valid civil
dates (month 1..12, day within the month's length). -/
theorem civilFromDays_daysFromCivil (y m d : Int) (hm1 : 1 ≤ m) (hm2 : m ≤ 12)
    (hd1 : 1 ≤ d) (hd2 : d ≤ daysInMonth y m) :
    civilFromDays (daysFromCivil y m d) = ⟨y, m, d⟩ := by
  have hd31 : d ≤ 31 := by
    have hmax : daysInMonth y m ≤ 31 := by
      unfold daysInMonth
      split_ifs <;> omega
    omega
  have hdFeb : m = 2 → d ≤ if isLeapYear y then 29 else 28 := by
    intro hm
    subst hm
    simpa [daysInMonth] using hd2
  have hleapiff : isLeapYear y = true ↔ (y % 4 = 0 ∧ (y % 100 ≠ 0 ∨ y % 400 = 0)) := by
    unfold isLeapYear
    simp only [Bool.or_eq_true, Bool.and_eq_true, beq_iff_eq, bne_iff_ne]
    constructor
    · intro h
      omega
    · intro h
      omega
  obtain ⟨Y, hY⟩ : ∃ v, (if m ≤ 2 then y - 1 else y) = v := ⟨_, rfl⟩
  obtain ⟨era, hera⟩ : ∃ v, Y / 400 = v := ⟨_, rfl⟩
  obtain ⟨yoe, hyoev⟩ : ∃ v, Y - era * 400 = v := ⟨_, rfl⟩
  obtain ⟨mp, hmpv⟩ : ∃ v, (if 2 < m then m - 3 else m + 9) = v := ⟨_, rfl⟩
  obtain ⟨doy, hdoyv⟩ : ∃ v, (153 * mp + 2) / 5 + d - 1 = v := ⟨_, rfl⟩
  obtain ⟨doe, hdoev⟩ : ∃ v, 365 * yoe + yoe / 4 - yoe / 100 + doy = v := ⟨_, rfl⟩
  have hyoeb : 0 ≤ yoe ∧ yoe ≤ 399 := by omega
  have hmpb : (2 < m ∧ mp = m - 3) ∨ (m ≤ 2 ∧ mp = m + 9) := by
    by_cases h : 2 < m
    · left
      constructor
      · exact h
      · rw [← hmpv, if_pos h]
    · right
      constructor
      · omega
      · rw [← hmpv, if_neg h]
  have hdoy0 : 0 ≤ doy := by
    rcases hmpb with ⟨hc, he⟩ | ⟨hc, he⟩ <;> omega
  have hdoycases : doy ≤ 364 ∨
      (doy = 365 ∧ (yoe = 399 ∨ ((yoe + 1) % 4 = 0 ∧ (yoe + 1) % 100 ≠ 0))) := by
    by_cases hm : m = 2
    · have hmp11 : mp = 11 := by omega
      have hYm : Y = y - 1 := by rw [← hY, if_pos (by omega)]
      by_cases hly : isLeapYear y = true
      · have hdiv := hleapiff.mp hly
        by_cases hd28 : d ≤ 28
        · left
          omega
        · have hd29 : d = 29 := by
            have := hdFeb hm
            rw [if_pos hly] at this
            omega
          right
          constructor
          · omega
          · rcases hdiv.2 with hc100 | hc400
            · right
              omega
            · left
              omega
      · have hd28 : d ≤ 28 := by
          have := hdFeb hm
          rw [if_neg hly] at this
          omega
        left
        omega
    · left
      rcases hmpb with ⟨hc, he⟩ | ⟨hc, he⟩
      · omega
      · have hm1' : m = 1 := by omega
        omega
  have hdoe0 : 0 ≤ doe := by omega
  have hdoe1 : doe ≤ 146096 := by omega
  have hyoeF : (doe - doe / 1460 + doe / 36524 - doe / 146096) / 365 = yoe := by
    have h := yoeF_inv yoe doy hyoeb.1 hyoeb.2 hdoy0 hdoycases
    unfold gAdj sY at h
    rw [hdoev] at h
    exact h
  have hmprec : (5 * doy + 2) / 153 = mp := by
    have hFebBound : mp = 11 → d ≤ 29 := by
      intro h11
      have hm2' : m = 2 := by omega
      have := hdFeb hm2'
      split_ifs at this <;> omega
    have h30 : mp = 1 ∨ mp = 3 ∨ mp = 6 ∨ mp = 8 → d ≤ 30 := by
      intro hc
      have hm30 : m = 4 ∨ m = 6 ∨ m = 9 ∨ m = 11 := by omega
      have hlen : daysInMonth y m = 30 := by
        unfold daysInMonth
        rw [if_neg (by omega), if_pos hm30]
      omega
    rw [← hdoyv]
    exact mp_recover mp d (by omega) (by omega) hd1 hd31 hFebBound h30
  have hddrec : doy - (153 * mp + 2) / 5 + 1 = d := by omega
  have hz : daysFromCivil y m d + 719468 = era * 146097 + doe := by
    simp only [daysFromCivil]
    rw [hY, hmpv, hera, hyoev]
    omega
  have hcore := civil_core (daysFromCivil y m d) era doe yoe doy mp d hz hdoe0 hdoe1
    hyoeF (by omega) hmprec hddrec
  rw [hcore]
  have hmonth : (if mp < 10 then mp + 3 else mp - 9) = m := by
    rcases hmpb with ⟨hc, he⟩ | ⟨hc, he⟩ <;> split_ifs <;> omega
  rw [hmonth]
  have hyear : (if m ≤ 2 then yoe + era * 400 + 1 else yoe + era * 400) = y := by
    by_cases hc : m ≤ 2
    · rw [if_pos hc]
      rw [← hY, if_pos hc] at hyoev
      omega
    · rw [if_neg hc]
      rw [← hY, if_neg hc] at hyoev
      omega
  rw [hyear]

/-- Every date with year at most 99 (and fields in the basic ranges) has a
day number strictly below that of 0100-01-01. -/
theorem daysFromCivil_lt_year100 (yy mm dd : Int) (hy : yy ≤ 99)
    (hm1 : 1 ≤ mm) (hm2 : mm ≤ 12) (hd1 : 1 ≤ dd) (hd2 : dd ≤ 31) :
    daysFromCivil yy mm dd < daysFromCivil 100 1 1 := by
  have hc : daysFromCivil 100 1 1 = -683003 := by decide
  rw [hc]
  simp only [daysFromCivil]
  split_ifs <;> omega

/-- Every date with year at least 101 (and fields in the basic ranges) has a
day number at least that of 0101-01-01. -/
theorem daysFromCivil_ge_year101 (yy mm dd : Int) (hy : 101 ≤ yy)
    (hm1 : 1 ≤ mm) (hm2 : mm ≤ 12) (hd1 : 1 ≤ dd) :
    daysFromCivil 101 1 1 ≤ daysFromCivil yy mm dd := by
  have hc : daysFromCivil 101 1 1 = -682638 := by decide
  rw [hc]
  simp only [daysFromCivil]
  split_ifs <;> omega

/-- Day numbers at or past that of 0100-01-01 have year at least 100. -/
theorem civilFromDays_year_ge_100 (z : Int) (h : daysFromCivil 100 1 1 ≤ z) :
    100 ≤ (civilFromDays z).year := by
  by_contra hy
  push_neg at hy
  have hv := civilFromDays_valid z
  have hlt := daysFromCivil_lt_year100 (civilFromDays z).year (civilFromDays z).month
    (civilFromDays z).day (by omega) hv.1 hv.2.1 hv.2.2.1 hv.2.2.2
  rw [daysFromCivil_civilFromDays] at hlt
  omega

/-! ## ECMAScript `Date` and `Intl` time-zone model

Modelled from the spec: §4.2 requires the platform's IANA time-zone
database, reached in the source through `Intl.DateTimeFormat`, and the
ECMAScript `Date.UTC` / `getUTC*` functions.  A time zone is modelled by its
offset function (minutes to add to UTC to obtain local wall time, as a
function of the instant); the database maps zone names to zones, always
contains "UTC" with offset zero, and a name is valid iff the lookup
succeeds.  `Date.UTC` includes ECMAScript's mapping of two-digit years
(0..99 denote 1900..1999) and its month/day normalization. -/

/-- The two-digit-year mapping of ECMAScript `Date.UTC`. -/
def jsYearMap (y : Int) : Int := if 0 ≤ y ∧ y ≤ 99 then 1900 + y else y

/-- ECMAScript `MakeDay`: day number for a year, 0-based month (normalized
by carrying into the year) and day (additive overflow). -/
def jsMakeDay (year month day : Int) : Int :=
  daysFromCivil (year + month / 12) (month % 12 + 1) day

/-- `Date.UTC(year, month, day, hour, minute, second)` in milliseconds. -/
def dateUTC (y mon d h mi s : Int) : Int :=
  jsMakeDay (jsYearMap y) mon d * 86400000 + (h * 3600000 + mi * 60000 + s * 1000)

/-- The wall-clock reading obtained by formatting an instant in a zone
(the source's `ZonedParts` with the decimal-string fields read as their
numeric values). -/
structure ZonedParts where
  year : Int
  month : Int
  day : Int
  hour : Int
  minute : Int
  second : Int
deriving DecidableEq, Repr

/-- Civil breakdown of a millisecond timestamp (UTC wall-clock reading). -/
def civilOfMs (t : Int) : ZonedParts :=
  let days := t / 86400000
  let r := t % 86400000
  let ymd := civilFromDays days
  ⟨ymd.year, ymd.month, ymd.day, r / 3600000, r % 3600000 / 60000, r % 60000 / 1000⟩

/-- Modelled from the spec: the platform's IANA zone database. -/
structure IanaDatabase where
  zones : String → Option (Int → Int)
  utc_def : zones "UTC" = some fun _ => 0

/-- `isValidTimeZone` of `src/time/zoned.ts`: a zone name is valid iff
constructing an `Intl.DateTimeFormat` with it does not throw, i.e. iff the
name is in the platform database. -/
def isValidTimeZone (db : IanaDatabase) (timeZone : String) : Bool :=
  (db.zones timeZone).isSome

/-- `getZonedParts` of `src/time/zoned.ts`: project an instant through a
named zone, silently substituting UTC for an invalid zone name. -/
def getZonedParts (db : IanaDatabase) (date : Int) (timeZone : String) : ZonedParts :=
  let tz := if isValidTimeZone db timeZone then timeZone else "UTC"
  let offsetMinutes :=
    match db.zones tz with
    | some f => f date
    | none => 0
  civilOfMs (date + offsetMinutes * 60000)

/-- `addDaysToYmd` of `src/time/zoned.ts`: build the UTC-noon anchor with
`Date.UTC(y, m-1, d, 12, 0, 0)`, shift by whole days (`setUTCDate` adds the
offset to the day-of-month, which is additive in `MakeDay`), and read the
UTC calendar fields back. -/
def addDaysToYmd (ymd : Ymd) (dayOffset : Int) : Ymd :=
  let base := dateUTC ymd.year (ymd.month - 1) ymd.day 12 0 0
  civilFromDays ((base + dayOffset * 86400000) / 86400000)

/-- `toDateUtcMs` of `src/time/zoned.ts`: `Date.UTC(year, month-1, day)`. -/
def toDateUtcMs (ymd : Ymd) : Int :=
  dateUTC ymd.year (ymd.month - 1) ymd.day 0 0 0

/-- The signed correction (whole days plus minutes, in minutes) computed in
each iteration of `zonedLocalToUtcMs`. -/
def zonedDiffMinutes (db : IanaDatabase) (timeZone : String) (desired : ZonedParts)
    (guess : Int) : Int :=
  let got := getZonedParts db guess timeZone
  let dayDiff := (toDateUtcMs ⟨desired.year, desired.month, desired.day⟩ -
      toDateUtcMs ⟨got.year, got.month, got.day⟩) / 86400000
  let desiredMinutes := desired.hour * 60 + desired.minute
  let gotMinutes := got.hour * 60 + got.minute
  dayDiff * 1440 + (desiredMinutes - gotMinutes)

/-- The correction loop of `zonedLocalToUtcMs`: at most `fuel` iterations,
returning the current guess as soon as the difference reaches zero, and the
last guess when the fuel is exhausted. -/
def zonedLocalToUtcMsLoop (db : IanaDatabase) (timeZone : String) (desired : ZonedParts) :
    Nat → Int → Int
  | 0, guess => guess
  | n + 1, guess =>
    let diff := zonedDiffMinutes db timeZone desired guess
    if diff = 0 then guess
    else zonedLocalToUtcMsLoop db timeZone desired n (guess + diff * 60000)

/-- `zonedLocalToUtcMs` of `src/time/zoned.ts`: initial guess treats the
desired local fields as UTC; the correction loop runs `4` iterations. -/
def zonedLocalToUtcMs (db : IanaDatabase) (timeZone : String) (desired : ZonedParts) : Int :=
  zonedLocalToUtcMsLoop db timeZone desired 4
    (dateUTC desired.year (desired.month - 1) desired.day desired.hour desired.minute
      desired.second)

theorem loopStep (db : IanaDatabase) (tz : String) (desired : ZonedParts) (n : Nat) (g : Int) :
    zonedLocalToUtcMsLoop db tz desired (n + 1) g =
      if zonedDiffMinutes db tz desired g = 0 then g
      else zonedLocalToUtcMsLoop db tz desired n (g + zonedDiffMinutes db tz desired g * 60000) :=
  rfl

theorem daysInMonth_le_31 (y m : Int) : daysInMonth y m ≤ 31 := by
  unfold daysInMonth
  split_ifs <;> omega

theorem dateUTC_eq (y m d h mi s : Int) (hy : 100 ≤ y) (hm1 : 1 ≤ m) (hm2 : m ≤ 12) :
    dateUTC y (m - 1) d h mi s =
      daysFromCivil y m d * 86400000 + (h * 3600000 + mi * 60000 + s * 1000) := by
  unfold dateUTC jsMakeDay jsYearMap
  rw [if_neg (by omega)]
  have e1 : (m - 1) / 12 = 0 := by omega
  have e2 : (m - 1) % 12 = m - 1 := by omega
  rw [e1, e2]
  have e3 : y + 0 = y := by ring
  have e4 : m - 1 + 1 = m := by ring
  rw [e3, e4]

theorem civilOfMs_mk (y m d h mi s : Int) (hm1 : 1 ≤ m) (hm2 : m ≤ 12)
    (hd1 : 1 ≤ d) (hd2 : d ≤ daysInMonth y m)
    (hh0 : 0 ≤ h) (hh1 : h ≤ 23) (hmi0 : 0 ≤ mi) (hmi1 : mi ≤ 59)
    (hs0 : 0 ≤ s) (hs1 : s ≤ 59) :
    civilOfMs (daysFromCivil y m d * 86400000 + (h * 3600000 + mi * 60000 + s * 1000)) =
      ⟨y, m, d, h, mi, s⟩ := by
  simp only [civilOfMs]
  have hq : (daysFromCivil y m d * 86400000 + (h * 3600000 + mi * 60000 + s * 1000)) / 86400000
      = daysFromCivil y m d := by omega
  have hr : (daysFromCivil y m d * 86400000 + (h * 3600000 + mi * 60000 + s * 1000)) % 86400000
      = h * 3600000 + mi * 60000 + s * 1000 := by omega
  rw [hq, hr, civilFromDays_daysFromCivil y m d hm1 hm2 hd1 hd2]
  have e1 : (h * 3600000 + mi * 60000 + s * 1000) / 3600000 = h := by omega
  have e2 : (h * 3600000 + mi * 60000 + s * 1000) % 3600000 / 60000 = mi := by omega
  have e3 : (h * 3600000 + mi * 60000 + s * 1000) % 60000 / 1000 = s := by omega
  rw [e1, e2, e3]

theorem toDateUtcMs_civilOfMs (x : Int) (hy : 100 ≤ (civilFromDays (x / 86400000)).year) :
    toDateUtcMs ⟨(civilOfMs x).year, (civilOfMs x).month, (civilOfMs x).day⟩ =
      x / 86400000 * 86400000 := by
  have hv := civilFromDays_valid (x / 86400000)
  have hcy : (civilOfMs x).year = (civilFromDays (x / 86400000)).year := rfl
  have hcm : (civilOfMs x).month = (civilFromDays (x / 86400000)).month := rfl
  have hcd : (civilOfMs x).day = (civilFromDays (x / 86400000)).day := rfl
  unfold toDateUtcMs
  rw [hcy, hcm, hcd]
  rw [dateUTC_eq _ _ _ _ _ _ hy hv.1 hv.2.1]
  rw [daysFromCivil_civilFromDays]
  ring

theorem getZonedParts_valid (db : IanaDatabase) (f : Int → Int) (tz : String)
    (hf : db.zones tz = some f) (t : Int) :
    getZonedParts db t tz = civilOfMs (t + f t * 60000) := by
  simp [getZonedParts, isValidTimeZone, hf]

/-- Convergence of the correction loop when the zone offset is the same at
the initial guess and at the corrected instant (in particular for
fixed-offset zones, and for any zone away from a transition): the loop
terminates with the exact inverse of the projection, namely the desired
local fields read as UTC minus the offset. -/
theorem zonedLocalToUtcMs_stable (db : IanaDatabase) (tz : String) (f : Int → Int) (off : Int)
    (hf : db.zones tz = some f)
    (y m d h mi s : Int) (hy : 101 ≤ y) (hm1 : 1 ≤ m) (hm2 : m ≤ 12)
    (hd1 : 1 ≤ d) (hd31 : d ≤ 31)
    (hh0 : 0 ≤ h) (hh1 : h ≤ 23) (hmi0 : 0 ≤ mi) (hmi1 : mi ≤ 59)
    (hs0 : 0 ≤ s) (hs1 : s ≤ 59)
    (hob0 : -1440 ≤ off) (hob1 : off ≤ 1440)
    (hoff0 : f (dateUTC y (m - 1) d h mi s) = off)
    (hoff1 : f (dateUTC y (m - 1) d h mi s - off * 60000) = off) :
    zonedLocalToUtcMs db tz ⟨y, m, d, h, mi, s⟩ =
      dateUTC y (m - 1) d h mi s - off * 60000 := by
  have hyy : (100:Int) ≤ y := by omega
  have hB2 := dateUTC_eq y m d h mi s hyy hm1 hm2
  have hD := daysFromCivil_ge_year101 y m d hy hm1 hm2 hd1
  have hc101 : daysFromCivil 101 1 1 = -682638 := by decide
  have hc100 : daysFromCivil 100 1 1 = -683003 := by decide
  have hh' : ∀ x : Int, (civilOfMs x).hour = x % 86400000 / 3600000 := fun _ => rfl
  have hm' : ∀ x : Int, (civilOfMs x).minute = x % 86400000 % 3600000 / 60000 := fun _ => rfl
  have hoff1' : f (dateUTC y (m - 1) d h mi s + -off * 60000) = off := by
    have e : dateUTC y (m - 1) d h mi s + -off * 60000
        = dateUTC y (m - 1) d h mi s - off * 60000 := by ring
    rw [e]
    exact hoff1
  have hx0y : 100 ≤ (civilFromDays ((dateUTC y (m - 1) d h mi s + off * 60000) / 86400000)).year := by
    apply civilFromDays_year_ge_100
    rw [hc100, hB2]
    rw [hc101] at hD
    omega
  have hx1y : 100 ≤ (civilFromDays (dateUTC y (m - 1) d h mi s / 86400000)).year := by
    apply civilFromDays_year_ge_100
    rw [hc100, hB2]
    rw [hc101] at hD
    omega
  have hdiff0 : zonedDiffMinutes db tz ⟨y, m, d, h, mi, s⟩ (dateUTC y (m - 1) d h mi s)
      = -off := by
    simp only [zonedDiffMinutes]
    rw [getZonedParts_valid db f tz hf, hoff0]
    rw [toDateUtcMs_civilOfMs _ hx0y]
    simp only [toDateUtcMs]
    rw [dateUTC_eq y m d 0 0 0 hyy hm1 hm2]
    rw [hh', hm']
    rw [hB2]
    omega
  have hdiff1 : zonedDiffMinutes db tz ⟨y, m, d, h, mi, s⟩
      (dateUTC y (m - 1) d h mi s + -off * 60000) = 0 := by
    simp only [zonedDiffMinutes]
    rw [getZonedParts_valid db f tz hf, hoff1']
    have e : dateUTC y (m - 1) d h mi s + -off * 60000 + off * 60000
        = dateUTC y (m - 1) d h mi s := by ring
    rw [e]
    rw [toDateUtcMs_civilOfMs _ hx1y]
    simp only [toDateUtcMs]
    rw [dateUTC_eq y m d 0 0 0 hyy hm1 hm2]
    rw [hh', hm']
    rw [hB2]
    omega
  show zonedLocalToUtcMsLoop db tz ⟨y, m, d, h, mi, s⟩ 4 (dateUTC y (m - 1) d h mi s)
      = dateUTC y (m - 1) d h mi s - off * 60000
  rw [show (4:Nat) = 3 + 1 from rfl, loopStep, hdiff0]
  by_cases hz : off = 0
  · rw [if_pos (by omega)]
    omega
  · rw [if_neg (by omega)]
    rw [show (3:Nat) = 2 + 1 from rfl, loopStep, hdiff1, if_pos rfl]
    omega

/-- Round trip of `zonedLocalToUtcMs` and `getZonedParts` under a stable
zone offset: projecting the computed instant back through the same zone
reproduces all the desired local fields. -/
theorem zonedRoundTrip (db : IanaDatabase) (tz : String) (f : Int → Int) (off : Int)
    (hf : db.zones tz = some f)
    (y m d h mi s : Int) (hy : 101 ≤ y) (hm1 : 1 ≤ m) (hm2 : m ≤ 12)
    (hd1 : 1 ≤ d) (hd2 : d ≤ daysInMonth y m)
    (hh0 : 0 ≤ h) (hh1 : h ≤ 23) (hmi0 : 0 ≤ mi) (hmi1 : mi ≤ 59)
    (hs0 : 0 ≤ s) (hs1 : s ≤ 59)
    (hob0 : -1440 ≤ off) (hob1 : off ≤ 1440)
    (hoff0 : f (dateUTC y (m - 1) d h mi s) = off)
    (hoff1 : f (dateUTC y (m - 1) d h mi s - off * 60000) = off) :
    getZonedParts db (zonedLocalToUtcMs db tz ⟨y, m, d, h, mi, s⟩) tz = ⟨y, m, d, h, mi, s⟩ := by
  have hd31 : d ≤ 31 := le_trans hd2 (daysInMonth_le_31 y m)
  rw [zonedLocalToUtcMs_stable db tz f off hf y m d h mi s hy hm1 hm2 hd1 hd31
    hh0 hh1 hmi0 hmi1 hs0 hs1 hob0 hob1 hoff0 hoff1]
  rw [getZonedParts_valid db f tz hf, hoff1]
  have e : dateUTC y (m - 1) d h mi s - off * 60000 + off * 60000
      = dateUTC y (m - 1) d h mi s := by ring
  rw [e, dateUTC_eq y m d h mi s (by omega) hm1 hm2]
  exact civilOfMs_mk y m d h mi s hm1 hm2 hd1 hd2 hh0 hh1 hmi0 hmi1 hs0 hs1

/-! ## String utilities shared by the parsers

JS `\s` (and `String.trim`) whitespace set, ASCII digits, and small helpers
over `List Char`.  Strings are modelled as their character lists; all the
characters involved are in the Basic Multilingual Plane, where JS UTF-16
indices and character indices agree. -/

/-- The ECMAScript whitespace class `\s` (WhiteSpace plus LineTerminator). -/
def isJsSpace (c : Char) : Bool :=
  c = ' ' || c = '\t' || c = '\n' || c = '\r' ||
  c.toNat = 0x0b || c.toNat = 0x0c || c.toNat = 0xa0 || c.toNat = 0x1680 ||
  (0x2000 ≤ c.toNat && c.toNat ≤ 0x200a) ||
  c.toNat = 0x2028 || c.toNat = 0x2029 || c.toNat = 0x202f ||
  c.toNat = 0x205f || c.toNat = 0x3000 || c.toNat = 0xfeff

/-- ASCII decimal digit (`\d` in a JS regex). -/
def isAsciiDigit (c : Char) : Bool := '0' ≤ c && c ≤ '9'

/-- JS `String.prototype.trim`. -/
def trimWs (s : List Char) : List Char :=
  ((s.dropWhile isJsSpace).reverse.dropWhile isJsSpace).reverse

/-- Length of the leading whitespace run (a greedy `\s*`). -/
def takeSpacesCount (s : List Char) : Nat := (s.takeWhile isJsSpace).length

/-- Collapse adjacent spaces (used to model `replace(/\s+/g, " ")`). -/
def squeezeSpaces : List Char → List Char
  | [] => []
  | a :: rest =>
    match rest with
    | b :: _ => if a = ' ' && b = ' ' then squeezeSpaces rest else a :: squeezeSpaces rest
    | [] => [a]

/-- `replace(/\s+/g, " ")`: every maximal whitespace run becomes one space. -/
def collapseWs (s : List Char) : List Char :=
  squeezeSpaces (s.map fun c => if isJsSpace c then ' ' else c)

/-- First literal of `lits` that is a prefix of `s` (a JS alternation of
plain literals tries the alternatives in order). -/
def firstLit (lits : List (List Char)) (s : List Char) : Option (List Char × List Char) :=
  match lits with
  | [] => none
  | l :: ls => if List.isPrefixOf l s then some (l, s.drop l.length) else firstLit ls s

/-- Substring test (JS `includes` / an unanchored `test`). -/
def containsSeq : List Char → List Char → Bool
  | [], pat => pat.isEmpty
  | c :: rest, pat => List.isPrefixOf pat (c :: rest) || containsSeq rest pat

/-- `replace(/lit1|lit2|.../g, " ")`, scanning left to right, first matching
alternative wins; when `eatWs` is set the pattern also swallows the trailing
whitespace run (the reminder stop-word regex ends in `\s*`). -/
def replaceLits (fuel : Nat) (lits : List (List Char)) (eatWs : Bool) (s : List Char) :
    List Char :=
  match fuel, s with
  | 0, rest => rest
  | _ + 1, [] => []
  | fuel + 1, c :: rest =>
    match firstLit lits (c :: rest) with
    | some (_, r) =>
      let r2 := if eatWs then r.drop (takeSpacesCount r) else r
      ' ' :: replaceLits fuel lits eatWs r2
    | none => c :: replaceLits fuel lits eatWs rest

/-- `pad2` of the source: decimal representation left-padded to width 2. -/
def pad2s (n : Nat) : String := if n < 10 then "0" ++ toString n else toString n

/-! ## One-shot reminder due-ness (`src/reminder/scheduler.ts`) -/

/-- `isDue` of `src/reminder/scheduler.ts`. -/
def isDue (nowMs scheduledAtMs maxOverdueMs : Int) : Bool :=
  if nowMs < scheduledAtMs then false
  else if nowMs - scheduledAtMs > maxOverdueMs then false
  else true

/-- The `maxOverdueMs` constant of the reminder scheduler tick: one hour. -/
def maxOverdueMs : Int := 60 * 60 * 1000

/-! ## Reminder store (`src/reminder/store.ts`, both revisions) -/

/-- Acknowledgement actions of the V2 reminder store. -/
inductive DingtalkReminderAckAction
  | done
  | snoozed
  | canceled
deriving DecidableEq, Repr

/-- A one-shot reminder record (`src/reminder/types.ts`). -/
structure DingtalkReminder where
  id : String
  userId : String
  text : String
  scheduledAtMs : Int
  timeZone : String
  createdAtMs : Int
  sentAtMs : Option Int
  canceledAtMs : Option Int
  acknowledgedAtMs : Option Int
  ackAction : Option DingtalkReminderAckAction
  nextReminderId : Option String
  snoozedFromId : Option String

/-- The reminder collection: the JSON object `reminders` keyed by id. -/
def ReminderMap := String → Option DingtalkReminder

/-- `cancelDingtalkReminder`, first revision of `src/reminder/store.ts`
(lines 101-113): delete the record, but only when it exists and is owned by
the caller.  Returns the flag and the resulting collection. -/
def cancelDingtalkReminderV1 (reminders : ReminderMap) (id userId : String) :
    Bool × ReminderMap :=
  match reminders id with
  | none => (false, reminders)
  | some existing =>
    if existing.userId ≠ userId then (false, reminders)
    else (true, fun k => if k = id then none else reminders k)

/-- `cancelDingtalkReminder`, second revision of `src/reminder/store.ts`
(lines 236-254): keep the record but set `canceledAtMs`, `acknowledgedAtMs`
and `ackAction` (each only if not already set), only when the record exists
and is owned by the caller. -/
def cancelDingtalkReminderV2 (reminders : ReminderMap) (id userId : String) (nowMs : Int) :
    Bool × ReminderMap :=
  match reminders id with
  | none => (false, reminders)
  | some existing =>
    if existing.userId ≠ userId then (false, reminders)
    else
      (true, fun k =>
        if k = id then
          some { existing with
            canceledAtMs := some (existing.canceledAtMs.getD nowMs),
            acknowledgedAtMs := some (existing.acknowledgedAtMs.getD nowMs),
            ackAction := some (existing.ackAction.getD .canceled) }
        else reminders k)

/-! ## Daily weather subscription due-ness (`src/subscription/scheduler.ts`) -/

/-- A geocoded place (`subscription-types.ts`); the floating-point
coordinates are used only by the weather HTTP calls and are omitted. -/
structure DingtalkPlace where
  query : String
  label : String
  timezone : String
deriving DecidableEq, Repr

/-- The daily schedule: a local `HH:mm` in the place's zone. -/
structure DingtalkDailySchedule where
  time : String
deriving DecidableEq, Repr

/-- A daily weather subscription (`subscription-types.ts`). -/
structure DingtalkWeatherSubscription where
  userId : String
  place : DingtalkPlace
  schedule : DingtalkDailySchedule
  createdAt : Int
  updatedAt : Int
  lastSentLocalDate : Option String
deriving DecidableEq, Repr

/-- `parseHHmm` of `src/subscription/scheduler.ts`: anchored
`^(\d{1,2}):(\d{2})$` on the trimmed string, then range validation. -/
def parseHHmmChars : List Char → Option (Int × Int)
  | c1 :: rest =>
    if isAsciiDigit c1 then
      match rest with
      | c2 :: ':' :: m1 :: m2 :: [] =>
        if isAsciiDigit c2 && isAsciiDigit m1 && isAsciiDigit m2 then
          some (((c1.toNat - 48) * 10 + (c2.toNat - 48) : Nat),
            ((m1.toNat - 48) * 10 + (m2.toNat - 48) : Nat))
        else none
      | ':' :: m1 :: m2 :: [] =>
        if isAsciiDigit m1 && isAsciiDigit m2 then
          some ((c1.toNat - 48 : Nat), ((m1.toNat - 48) * 10 + (m2.toNat - 48) : Nat))
        else none
      | _ => none
    else none
  | [] => none

/-- `parseHHmm`: match, then reject out-of-range hours and minutes. -/
def parseHHmm (time : String) : Option (Int × Int) :=
  match parseHHmmChars (trimWs time.data) with
  | none => none
  | some (hour, minute) =>
    if hour < 0 ∨ 23 < hour ∨ minute < 0 ∨ 59 < minute then none
    else some (hour, minute)

/-- `computeLocalDateKey`: the local calendar-date string `YYYY-MM-DD`
(year as formatted, month and day two-digit). -/
def computeLocalDateKey (parts : ZonedParts) : String :=
  toString parts.year ++ "-" ++ (if 0 ≤ parts.month ∧ parts.month < 10
    then "0" ++ toString parts.month else toString parts.month) ++ "-" ++
    (if 0 ≤ parts.day ∧ parts.day < 10 then "0" ++ toString parts.day else toString parts.day)

/-- `computeMinutesOfDay`. -/
def computeMinutesOfDay (parts : ZonedParts) : Int := parts.hour * 60 + parts.minute

/-- `isDueNow` of `src/subscription/scheduler.ts`; `graceMinutes` defaults
to 2 at the call site. -/
def isDueNow (subscription : DingtalkWeatherSubscription) (localDateKey : String)
    (nowMinutes : Int) (graceMinutes : Int) : Bool :=
  if subscription.lastSentLocalDate = some localDateKey then false
  else
    match parseHHmm subscription.schedule.time with
    | none => false
    | some (hour, minute) =>
      let target := hour * 60 + minute
      if target ≤ nowMinutes ∧ nowMinutes ≤ target + graceMinutes then true else false

/-- The scheduler tick's per-subscription due test: project now through the
subscription's own zone and apply `isDueNow` with the default grace. -/
def subscriptionDueAt (db : IanaDatabase) (now : Int) (sub : DingtalkWeatherSubscription) :
    Bool :=
  let parts := getZonedParts db now sub.place.timezone
  isDueNow sub (computeLocalDateKey parts) (computeMinutesOfDay parts) 2

/-- The mutation performed after a successful push: stamp `updatedAt` and
set `lastSentLocalDate` to today's local-date key. -/
def fireSubscription (db : IanaDatabase) (now : Int) (nowWallClock : Int)
    (sub : DingtalkWeatherSubscription) : DingtalkWeatherSubscription :=
  { sub with
    updatedAt := nowWallClock,
    lastSentLocalDate := some (computeLocalDateKey (getZonedParts db now sub.place.timezone)) }

/-! ## Calendar meeting notification (`src/calendar/scheduler.ts`, `store.ts`) -/

/-- The fields of an upstream calendar event that the notification decision
reads. -/
structure CalendarEvent where
  id : Option String
  summary : Option String
  startDateTime : Option String
  isAllDay : Bool
deriving DecidableEq, Repr

/-- `eventStartMs`: parse the start timestamp; absent or unparseable (or
empty, which is falsy) yields none.  `dateParse` models the platform's
`Date.parse` restricted to the successful (finite) results. -/
def eventStartMs (dateParse : String → Option Int) (e : CalendarEvent) : Option Int :=
  match e.startDateTime with
  | none => none
  | some dt => if dt = "" then none else dateParse dt

/-- The composite de-duplication key `eventId|startDateTime`. -/
def eventKey (e : CalendarEvent) : String :=
  (e.id.getD "") ++ "|" ++ (e.startDateTime.getD "")

/-- The per-event guard chain of the calendar scheduler tick (lines
105-116 of `src/calendar/scheduler.ts`): a notification is sent for `e`
iff this returns true.  `notifiedKeys` is the caller's notified-key
history (`wasEventNotified` is membership in it). -/
def shouldNotifyEvent (dateParse : String → Option Int) (nowMs minutesBefore : Int)
    (notifiedKeys : List String) (e : CalendarEvent) : Bool :=
  if e.isAllDay then false
  else
    match eventStartMs dateParse e with
    | none => false
    | some startMs =>
      let deltaMs := startMs - nowMs
      if deltaMs < 0 then false
      else if deltaMs > minutesBefore * 60000 then false
      else if trimWs (eventKey e).data = [] then false
      else if eventKey e ∈ notifiedKeys then false
      else true

/-- `markEventNotified` of `src/calendar/store.ts`: drop earlier copies of
the key, append it, and keep only the last `keep` entries (`keep` clamped
to 50..2000, default 500). -/
def markEventNotified (notifiedKeys : List String) (key : String) (keep : Option Int) :
    List String :=
  let keepN := max 50 (min 2000 (keep.getD 500))
  let next := (notifiedKeys.filter fun x => x ≠ key) ++ [key]
  next.drop (next.length - keepN.toNat)

/-! ## Natural-language time extraction

Shared verbatim between `src/reminder/nlp.ts` and
`src/skills/weather/subscription/nlp.ts` (identical `normalizeText`,
`parseZhInt`, `applyPeriodHint`, `findTimeMatches`); the stop-word lists
and entry points differ per file and are modelled separately below.  The
two JS regex scans are hand-compiled to deterministic matchers: every
backtracking choice in them is resolved statically because the relevant
character classes (period literals, clock-digit class, whitespace, `点`,
`半`, `分`) are pairwise disjoint. -/

/-- `normalizeText`: full-width digits and the full-width colon to ASCII,
then trim. -/
def normalizeText (s : List Char) : List Char :=
  trimWs (s.map fun c =>
    if 0xFF10 ≤ c.toNat ∧ c.toNat ≤ 0xFF19 then Char.ofNat (c.toNat - 0xFF10 + 48)
    else if c = '：' then ':' else c)

/-- The `ZH_DIGIT` table. -/
def zhDigit? (c : Char) : Option Nat :=
  if c = '零' ∨ c = '〇' then some 0
  else if c = '一' then some 1
  else if c = '二' ∨ c = '两' then some 2
  else if c = '三' then some 3
  else if c = '四' then some 4
  else if c = '五' then some 5
  else if c = '六' then some 6
  else if c = '七' then some 7
  else if c = '八' then some 8
  else if c = '九' then some 9
  else none

/-- Lookup of a whole string in `ZH_DIGIT` (`left in ZH_DIGIT`): only
single-character keys exist. -/
def zhLookup (l : List Char) : Option Nat :=
  match l with
  | [c] => zhDigit? c
  | _ => none

/-- Decimal value of an ASCII digit string (`Number` on a digit string). -/
def digitsToNat (s : List Char) : Nat :=
  s.foldl (fun acc c => acc * 10 + (c.toNat - 48)) 0

/-- `parseZhInt`: trim, replace 两 by 二, then in order: pure digit string;
single mapped character; `十` compound (tens default 1, ones default 0);
digit-by-digit concatenation fallback. -/
def parseZhInt (raw : List Char) : Option Nat :=
  let s := (trimWs raw).map fun c => if c = '两' then '二' else c
  if s = [] then none
  else if s.all isAsciiDigit then some (digitsToNat s)
  else
    match s, zhLookup s with
    | [_], some v => some v
    | _, _ =>
      if '十' ∈ s then
        let idx := s.indexOf '十'
        let left := trimWs (s.take idx)
        let right := trimWs (s.drop (idx + 1))
        let tens? := if left = [] then some 1 else zhLookup left
        match tens? with
        | none => none
        | some tens =>
          let ones? := if right = [] then some 0 else zhLookup right
          match ones? with
          | none => none
          | some ones => some (tens * 10 + ones)
      else if s.all fun c => (zhDigit? c).isSome then
        some (digitsToNat (s.map fun c => Char.ofNat ((zhDigit? c).getD 0 + 48)))
      else none

/-- A recognized clock time with the span it occupied. -/
structure TimeMatch where
  hour : Nat
  minute : Nat
  start : Nat
  endPos : Nat
deriving DecidableEq, Repr

/-- `applyPeriodHint`: 下午/晚上/傍晚/夜里/中午 add 12 to an hour below 12;
凌晨 maps 12 to 0; the colloquial "晚上12点" (a literal 12 under a PM word)
means 00:00. -/
def applyPeriodHint (hour : Nat) (period : List Char) : Nat :=
  let isPm := containsSeq period "下午".data || containsSeq period "晚上".data ||
    containsSeq period "傍晚".data || containsSeq period "夜里".data
  let isNoon := containsSeq period "中午".data
  let isDawn := containsSeq period "凌晨".data
  let h1 := if (isPm || isNoon) && hour < 12 then hour + 12 else hour
  let h2 := if isDawn && h1 = 12 then 0 else h1
  if isPm && h2 = 12 && containsSeq (toString hour).data "12".data then 0 else h2

/-- Continuation of the colon-form matcher after the hour digits:
`\s* : \s* (\d{1,2})` (the minute group is greedy and final). -/
def colonTail (hourVal : Nat) (consumed : Nat) (rest : List Char) :
    Option (Nat × Nat × Nat) :=
  let k1 := takeSpacesCount rest
  match rest.drop k1 with
  | ':' :: r2 =>
    let k2 := takeSpacesCount r2
    match r2.drop k2 with
    | c1 :: r3 =>
      if isAsciiDigit c1 then
        match r3 with
        | c2 :: _ =>
          if isAsciiDigit c2 then
            some (hourVal, (c1.toNat - 48) * 10 + (c2.toNat - 48), consumed + k1 + 1 + k2 + 2)
          else some (hourVal, c1.toNat - 48, consumed + k1 + 1 + k2 + 1)
        | [] => some (hourVal, c1.toNat - 48, consumed + k1 + 1 + k2 + 1)
      else none
    | [] => none
  | _ => none

/-- Attempt of `/(\d{1,2})\s*:\s*(\d{1,2})/` at the head of `s`: greedy
two-digit hour first, backtracking to one digit. -/
def tryColon : List Char → Option (Nat × Nat × Nat)
  | [] => none
  | c1 :: rest =>
    if isAsciiDigit c1 then
      match rest with
      | c2 :: rest2 =>
        if isAsciiDigit c2 then
          match colonTail ((c1.toNat - 48) * 10 + (c2.toNat - 48)) 2 rest2 with
          | some r => some r
          | none => colonTail (c1.toNat - 48) 1 rest
        else colonTail (c1.toNat - 48) 1 rest
      | [] => none
    else none

/-- `matchAll` scan of the colon form: leftmost matches, resuming after
each raw match; a match is kept only when `hour <= 23` and `minute <= 59`
(the source's range check before pushing), but scanning still resumes
after a discarded match, as `matchAll` advances past it either way. -/
def scanColon : Nat → List Char → Nat → List TimeMatch
  | 0, _, _ => []
  | _ + 1, [], _ => []
  | fuel + 1, s@(_ :: rest), pos =>
    match tryColon s with
    | some (h, mi, len) =>
      if h ≤ 23 ∧ mi ≤ 59 then
        ⟨h, mi, pos, pos + len⟩ :: scanColon fuel (s.drop len) (pos + len)
      else scanColon fuel (s.drop len) (pos + len)
    | none => scanColon fuel rest (pos + 1)

/-- The period-of-day literals, in the alternation's order. -/
def periodLits : List (List Char) :=
  ["凌晨".data, "早上".data, "上午".data, "中午".data, "下午".data,
   "晚上".data, "傍晚".data, "夜里".data]

/-- The clock-digit class `[0-9零〇一二两三四五六七八九十]`. -/
def isHourClassChar (c : Char) : Bool :=
  isAsciiDigit c || (zhDigit? c).isSome || c = '十'

/-- The minute part captured by the `点` regex: `半`, or a digit run. -/
inductive MinutePart
  | half
  | digits (raw : List Char)
deriving DecidableEq, Repr

/-- Attempt of the `点` regex at the head of `s`.  Returns the period
capture, the hour capture, the minute capture and the match length.  The
hour class run must have length 1..3 (a longer run cannot match: shortening
it leaves a class character where `点` is required); the `\s*` after `点`
is outside the optional minute group and is always consumed; within the
minute group `半` is tried first, the digit run is greedy up to 3, the
`\s*` after the digit run is consumed even when no `分` follows (the
rest of the group is optional, so the greedy run is never given back),
and of `(分|分钟)` only `分` can ever be consumed. -/
def tryDot (s : List Char) : Option (List Char × List Char × Option MinutePart × Nat) :=
  let pr := match firstLit periodLits s with
    | some (l, r) => (l, r)
    | none => ([], s)
  let period := pr.1
  let rest1 := pr.2
  let k1 := takeSpacesCount rest1
  let rest2 := rest1.drop k1
  let hourRun := rest2.takeWhile isHourClassChar
  if hourRun.length < 1 ∨ 3 < hourRun.length then none
  else
    let rest3 := rest2.drop hourRun.length
    let k2 := takeSpacesCount rest3
    match rest3.drop k2 with
    | '点' :: rest4 =>
      let k3 := takeSpacesCount rest4
      let rest5 := rest4.drop k3
      let base := period.length + k1 + hourRun.length + k2 + 1 + k3
      match rest5 with
      | '半' :: _ => some (period, hourRun, some .half, base + 1)
      | _ =>
        let minuteRun := (rest5.takeWhile isHourClassChar).take 3
        if minuteRun = [] then some (period, hourRun, none, base)
        else
          let rest6 := rest5.drop minuteRun.length
          let k4 := takeSpacesCount rest6
          match rest6.drop k4 with
          | '分' :: _ =>
            some (period, hourRun, some (.digits minuteRun), base + minuteRun.length + k4 + 1)
          | _ => some (period, hourRun, some (.digits minuteRun), base + minuteRun.length + k4)
    | _ => none

/-- Turn a raw `点` match into a `TimeMatch` as `findTimeMatches` does:
parse the hour, parse the minute (`半` is 30, absent is 0), apply the
period hint, discard out-of-range results. -/
def dotMatchOfRaw (pos : Nat) (period hourRaw : List Char) (minuteSpec : Option MinutePart)
    (len : Nat) : Option TimeMatch :=
  match parseZhInt hourRaw with
  | none => none
  | some hourParsed =>
    let minuteParsed? : Option Nat :=
      match minuteSpec with
      | none => some 0
      | some .half => some 30
      | some (.digits raw) => parseZhInt (trimWs raw)
    match minuteParsed? with
    | none => none
    | some minuteParsed =>
      let hour := applyPeriodHint hourParsed period
      if hour ≤ 23 ∧ minuteParsed ≤ 59 then some ⟨hour, minuteParsed, pos, pos + len⟩
      else none

/-- `matchAll` scan of the `点` form; invalid raw matches are skipped but
scanning still resumes after them. -/
def scanDot : Nat → List Char → Nat → List TimeMatch
  | 0, _, _ => []
  | _ + 1, [], _ => []
  | fuel + 1, s@(_ :: rest), pos =>
    match tryDot s with
    | some (period, hourRaw, minuteSpec, len) =>
      match dotMatchOfRaw pos period hourRaw minuteSpec len with
      | some tm => tm :: scanDot fuel (s.drop len) (pos + len)
      | none => scanDot fuel (s.drop len) (pos + len)
    | none => scanDot fuel rest (pos + 1)

/-- Stable insertion by start offset: an element goes in front of the
first strictly-later start, hence after earlier list entries of equal
start. -/
def insertByStart (x : TimeMatch) : List TimeMatch → List TimeMatch
  | [] => [x]
  | y :: ys => if x.start ≤ y.start then x :: y :: ys else y :: insertByStart x ys

/-- Stable sort by start offset (insertion sort), modelling the stable
`Array.prototype.sort` under the comparator `a.start - b.start`. -/
def sortByStart : List TimeMatch → List TimeMatch
  | [] => []
  | x :: xs => insertByStart x (sortByStart xs)

/-- `findTimeMatches`: both scans, merged by start offset (stable, colon
matches first, as `Array.prototype.sort` is stable). -/
def findTimeMatches (text : List Char) : List TimeMatch :=
  sortByStart (scanColon text.length text 0 ++ scanDot text.length text 0)

/-- `parseDayOffset` (reminder file only): 后天 is 2, else 明天 is 1, else 0. -/
def parseDayOffset (text : List Char) : Int :=
  let t := trimWs text
  if containsSeq t "后天".data then 2
  else if containsSeq t "明天".data then 1
  else 0

/-- Punctuation class replaced by spaces in both stop-word strippers. -/
def punctToSpace (s : List Char) : List Char :=
  s.map fun c => if c = '，' ∨ c = ',' ∨ c = '。' ∨ c = '.' ∨ c = '!' ∨ c = '！'
    ∨ c = '？' ∨ c = '?' then ' ' else c

/-- Stop-word literals of the weather subscription's `stripNoise`, in the
alternation's order. -/
def weatherStopLits : List (List Char) :=
  ["订阅天气".data, "天气订阅".data, "订阅".data, "天气".data, "推送".data, "提醒".data,
   "定时".data, "通知".data, "地点是".data, "地点".data, "时间是".data, "时间".data,
   "下一分钟".data, "下1分钟".data, "下个分钟".data, "下分钟".data, "下一刻".data,
   "每天".data, "每日".data, "早报".data, "晚报".data, "我想".data, "我要".data,
   "帮我".data, "请".data, "麻烦".data, "一下".data, "可以".data, "能不能".data,
   "能否".data, "帮忙".data, "给我".data]

/-- `stripNoise` of the weather subscription nlp. -/
def stripNoise (s : List Char) : List Char :=
  let s1 := collapseWs s
  let s2 := punctToSpace s1
  let s3 := replaceLits s2.length weatherStopLits false s2
  trimWs (collapseWs s3)

/-- Stop-word literals of the reminder `stripReminderNoise` (the regex for
these ends in `\s*`, so trailing whitespace is swallowed with the word). -/
def reminderStopLits : List (List Char) :=
  ["提醒我".data, "提醒一下".data, "提醒".data, "叫我".data, "闹钟".data, "到点".data,
   "帮我".data, "请".data, "麻烦".data, "一下".data, "的时候".data, "时候".data, "在".data]

/-- `stripReminderNoise` of the reminder nlp. -/
def stripReminderNoise (s : List Char) : List Char :=
  let s1 := collapseWs s
  let s2 := punctToSpace s1
  let s3 := replaceLits s2.length reminderStopLits true s2
  trimWs (collapseWs s3)

/-- The day words removed from residual text (`/今天|明天|后天/g`). -/
def dayWordLits : List (List Char) := ["今天".data, "明天".data, "后天".data]

/-- Remove the day words (each occurrence becomes a space). -/
def removeDayWords (s : List Char) : List Char :=
  replaceLits s.length dayWordLits false s

/-- Outcome type of `parseReminderFromText`. -/
inductive ParseReminderResult
  | ok (hour minute : Nat) (timeHHmm : String) (dayOffset : Int) (message : String)
  | need_time (message : String)
  | multiple_times
deriving DecidableEq, Repr

/-- The reminder residual when no time was matched. -/
def reminderResidualNoMatch (text : List Char) : List Char :=
  stripReminderNoise (removeDayWords text)

/-- The reminder residual around a matched span. -/
def reminderResidualAt (text : List Char) (m : TimeMatch) : List Char :=
  stripReminderNoise (removeDayWords (text.take m.start ++ [' '] ++ text.drop m.endPos))

/-- `parseReminderFromText` of the reminder nlp. -/
def parseReminderFromText (input : String) : ParseReminderResult :=
  let text := normalizeText input.data
  let dayOffset := parseDayOffset text
  let ms := findTimeMatches text
  if 2 ≤ ms.length then .multiple_times
  else
    match ms with
    | [] => .need_time (String.mk (reminderResidualNoMatch text))
    | m :: _ =>
      .ok m.hour m.minute (pad2s m.hour ++ ":" ++ pad2s m.minute) dayOffset
        (String.mk (reminderResidualAt text m))

/-- Outcome type of `parsePlaceAndDailyTime`. -/
inductive ParsePlaceTimeResult
  | ok (placeQuery timeHHmm : String)
  | need_place (timeHHmm : String)
  | need_time (placeQuery : String)
  | need_both
  | multiple_times
deriving DecidableEq, Repr

/-- The weather residual around a matched span. -/
def weatherResidualAt (text : List Char) (m : TimeMatch) : List Char :=
  stripNoise (text.take m.start ++ [' '] ++ text.drop m.endPos)

/-- `parsePlaceAndDailyTime` of the weather subscription nlp. -/
def parsePlaceAndDailyTime (input : String) : ParsePlaceTimeResult :=
  let text := normalizeText input.data
  let ms := findTimeMatches text
  if 2 ≤ ms.length then .multiple_times
  else
    match ms with
    | [] =>
      let placeQuery := stripNoise text
      if placeQuery = [] then .need_both else .need_time (String.mk placeQuery)
    | m :: _ =>
      let timeHHmm := pad2s m.hour ++ ":" ++ pad2s m.minute
      let placeQuery := weatherResidualAt text m
      if placeQuery = [] then .need_place timeHHmm
      else .ok (String.mk placeQuery) timeHHmm

/-! ## Further helper lemmas for the claim theorems -/

/-- Every date with year at least 100 has a day number at least that of
0100-01-01. -/
theorem daysFromCivil_ge_year100 (yy mm dd : Int) (hy : 100 ≤ yy)
    (hm1 : 1 ≤ mm) (hm2 : mm ≤ 12) (hd1 : 1 ≤ dd) :
    daysFromCivil 100 1 1 ≤ daysFromCivil yy mm dd := by
  have hc : daysFromCivil 100 1 1 = -683003 := by decide
  rw [hc]
  simp only [daysFromCivil]
  split_ifs <;> omega

/-- `jsMakeDay` on a 1..12 month (passed 0-based) needs no normalization. -/
theorem jsMakeDay_eq (y m d : Int) (hm1 : 1 ≤ m) (hm2 : m ≤ 12) :
    jsMakeDay y (m - 1) d = daysFromCivil y m d := by
  unfold jsMakeDay
  have e1 : (m - 1) / 12 = 0 := by omega
  have e2 : (m - 1) % 12 = m - 1 := by omega
  rw [e1, e2]
  have e3 : y + 0 = y := by ring
  have e4 : m - 1 + 1 = m := by ring
  rw [e3, e4]

/-- `addDaysToYmd` is `civilFromDays` of the shifted `MakeDay` day number
(the noon anchor never moves the floor). -/
theorem addDaysToYmd_eq (w : Ymd) (k : Int) :
    addDaysToYmd w k = civilFromDays (jsMakeDay (jsYearMap w.year) (w.month - 1) w.day + k) := by
  simp only [addDaysToYmd, dateUTC]
  congr 1
  generalize jsMakeDay (jsYearMap w.year) (w.month - 1) w.day = n
  omega

/-- An element appended at the end survives `drop n` for `n` within the
prefix. -/
theorem mem_drop_append {α : Type} (l : List α) (a : α) (n : Nat) (h : n ≤ l.length) :
    a ∈ (l ++ [a]).drop n := by
  rw [List.drop_append_of_le_length h]
  exact List.mem_append_right _ (List.mem_singleton_self a)

/-- America/New_York around the 2021 spring-forward transition
(UTC-5 before 2021-03-14T07:00Z, UTC-4 from then on), as in the IANA
database. -/
def nyOffset2021 : Int → Int := fun t => if t < 1615705200000 then -300 else -240

/-- The Asia/Shanghai offset (constant UTC+8 since 1991). -/
def shanghaiOffset : Int → Int := fun _ => 480

/-- A concrete three-zone instance of the platform database, for witnesses
and counterexamples. -/
def sampleDb : IanaDatabase where
  zones := fun s =>
    if s = "America/New_York" then some nyOffset2021
    else if s = "Asia/Shanghai" then some shanghaiOffset
    else if s = "UTC" then some fun _ => 0
    else none
  utc_def := by simp

theorem sampleDb_ny : sampleDb.zones "America/New_York" = some nyOffset2021 := by
  show (if ("America/New_York" : String) = "America/New_York" then some nyOffset2021
    else if ("America/New_York" : String) = "Asia/Shanghai" then some shanghaiOffset
    else if ("America/New_York" : String) = "UTC" then some fun _ => (0:Int) else none)
    = some nyOffset2021
  rw [if_pos rfl]

theorem sampleDb_sh : sampleDb.zones "Asia/Shanghai" = some shanghaiOffset := by
  show (if ("Asia/Shanghai" : String) = "America/New_York" then some nyOffset2021
    else if ("Asia/Shanghai" : String) = "Asia/Shanghai" then some shanghaiOffset
    else if ("Asia/Shanghai" : String) = "UTC" then some fun _ => (0:Int) else none)
    = some shanghaiOffset
  rw [if_neg (by decide), if_pos rfl]

theorem sampleDb_unknown : sampleDb.zones "Mars/Olympus" = none := by
  show (if ("Mars/Olympus" : String) = "America/New_York" then some nyOffset2021
    else if ("Mars/Olympus" : String) = "Asia/Shanghai" then some shanghaiOffset
    else if ("Mars/Olympus" : String) = "UTC" then some fun _ => (0:Int) else none)
    = none
  rw [if_neg (by decide), if_neg (by decide), if_neg (by decide)]

/-! ## Reminder creation scheduling (`src/reminder/tools.ts`) -/

/-- The local date/time targeted by `dingtalk_reminder_create` (free-text
revision, lines 85-108): base date is now's local date shifted by the
parsed day offset; when no day word was given (`dayOffset = 0`) and the
requested time-of-day is already past, roll to the next day. -/
def reminderDesired (nowParts : ZonedParts) (hour minute dayOffset : Int) : ZonedParts :=
  let baseYmd := addDaysToYmd ⟨nowParts.year, nowParts.month, nowParts.day⟩ dayOffset
  let nowMinutes := nowParts.hour * 60 + nowParts.minute
  let targetMinutes := hour * 60 + minute
  if dayOffset = 0 ∧ targetMinutes < nowMinutes then
    let rolled := addDaysToYmd baseYmd 1
    ⟨rolled.year, rolled.month, rolled.day, hour, minute, 0⟩
  else ⟨baseYmd.year, baseYmd.month, baseYmd.day, hour, minute, 0⟩

/-- The instant scheduled by `dingtalk_reminder_create`. -/
def reminderScheduledAtMs (db : IanaDatabase) (timeZone : String) (now : Int)
    (hour minute dayOffset : Int) : Int :=
  zonedLocalToUtcMs db timeZone
    (reminderDesired (getZonedParts db now timeZone) hour minute dayOffset)

/-! ## Claim theorems -/

/-- C2: for every now and scheduled instant, the one-shot reminder
due-ness predicate holds iff `scheduledAtMs ≤ now` and
`now - scheduledAtMs ≤ 1 hour`; in particular a reminder scheduled exactly
now is due, one 61 minutes overdue is not, and one 1 ms in the future is
not. -/
theorem claimC2 (now scheduled : Int) :
    (isDue now scheduled maxOverdueMs = true ↔
      scheduled ≤ now ∧ now - scheduled ≤ 60 * 60 * 1000) ∧
    isDue now now maxOverdueMs = true ∧
    isDue now (now - 61 * 60000) maxOverdueMs = false ∧
    isDue now (now + 1) maxOverdueMs = false := by
  unfold isDue maxOverdueMs
  refine ⟨?_, ?_, ?_, ?_⟩ <;> split_ifs <;> simp_all <;> omega

/-- C3: a daily subscription (with a parseable `HH:mm` schedule) is due
iff its `lastSentLocalDate` differs from the supplied local-date key and
the current local minute-of-day lies in `[target, target + 2]`; setting
`lastSentLocalDate` to a key makes every later check against that key
return false (so through the scheduler's firing update the subscription
cannot fire twice on the same local day). -/
theorem claimC3 (sub : DingtalkWeatherSubscription) (localDateKey : String)
    (nowMinutes hh mm : Int)
    (hparse : parseHHmm sub.schedule.time = some (hh, mm)) :
    (isDueNow sub localDateKey nowMinutes 2 = true ↔
      (sub.lastSentLocalDate ≠ some localDateKey ∧
       hh * 60 + mm ≤ nowMinutes ∧ nowMinutes ≤ hh * 60 + mm + 2)) ∧
    (∀ (key : String) (later grace : Int),
      isDueNow { sub with lastSentLocalDate := some key } key later grace = false) ∧
    (∀ (db : IanaDatabase) (now now' wall : Int),
      computeLocalDateKey (getZonedParts db now' sub.place.timezone) =
        computeLocalDateKey (getZonedParts db now sub.place.timezone) →
      subscriptionDueAt db now' (fireSubscription db now wall sub) = false) := by
  refine ⟨?_, ?_, ?_⟩
  · unfold isDueNow
    rw [hparse]
    split_ifs with h1 h2 <;> simp_all <;> omega
  · intro key later grace
    unfold isDueNow
    rw [if_pos rfl]
  · intro db now now' wall hkey
    unfold subscriptionDueAt fireSubscription isDueNow
    simp only
    rw [if_pos (by simp [hkey])]

/-- C6: projecting through an unknown zone name never fails: it returns
the UTC wall-clock reading, identical to projecting through "UTC", so no
caller needs a validity branch. -/
theorem claimC6 (db : IanaDatabase) (t : Int) (timeZone : String)
    (hinvalid : db.zones timeZone = none) :
    getZonedParts db t timeZone = civilOfMs t ∧
    getZonedParts db t timeZone = getZonedParts db t "UTC" := by
  have h1 : getZonedParts db t timeZone = civilOfMs t := by
    simp [getZonedParts, isValidTimeZone, hinvalid, db.utc_def]
  have h2 : getZonedParts db t "UTC" = civilOfMs t := by
    rw [getZonedParts_valid db _ "UTC" db.utc_def t]
    norm_num
  exact ⟨h1, h1.trans h2.symm⟩

/-- C6 witness: a concrete unknown zone name over the sample database. -/
theorem claimC6_witness :
    getZonedParts sampleDb 1615689000000 "Mars/Olympus" = civilOfMs 1615689000000 :=
  (claimC6 sampleDb 1615689000000 "Mars/Olympus" sampleDb_unknown).1

/-- C9: cancelling a reminder (in both store revisions) returns false and
leaves the collection unchanged when no reminder has the id or the caller
is not its owner, and returns true exactly when the caller owns the
reminder with that id. -/
theorem claimC9 (reminders : ReminderMap) (id userId : String) (nowMs : Int) :
    ((cancelDingtalkReminderV1 reminders id userId).1 = false →
      (cancelDingtalkReminderV1 reminders id userId).2 = reminders) ∧
    ((cancelDingtalkReminderV1 reminders id userId).1 = true ↔
      ∃ r, reminders id = some r ∧ r.userId = userId) ∧
    ((cancelDingtalkReminderV2 reminders id userId nowMs).1 = false →
      (cancelDingtalkReminderV2 reminders id userId nowMs).2 = reminders) ∧
    ((cancelDingtalkReminderV2 reminders id userId nowMs).1 = true ↔
      ∃ r, reminders id = some r ∧ r.userId = userId) := by
  unfold cancelDingtalkReminderV1 cancelDingtalkReminderV2
  cases hrem : reminders id with
  | none => simp
  | some existing =>
    by_cases hown : existing.userId = userId
    · simp [hown]
    · simp [hown]

/-- C3 witness: a concrete subscription scheduled at 10:20, last sent on a
previous local day, checked at local minute 621 (= 10:21). -/
theorem claimC3_witness :
    isDueNow ⟨"u", ⟨"成都", "成都", "Asia/Shanghai"⟩, ⟨"10:20"⟩, 0, 0, some "2025-03-01"⟩
        "2025-03-02" 621 2 = true ↔
      ((⟨"u", ⟨"成都", "成都", "Asia/Shanghai"⟩, ⟨"10:20"⟩, 0, 0, some "2025-03-01"⟩ :
          DingtalkWeatherSubscription).lastSentLocalDate ≠ some "2025-03-02" ∧
       10 * 60 + 20 ≤ (621 : Int) ∧ (621 : Int) ≤ 10 * 60 + 20 + 2) :=
  (claimC3 ⟨"u", ⟨"成都", "成都", "Asia/Shanghai"⟩, ⟨"10:20"⟩, 0, 0, some "2025-03-01"⟩
    "2025-03-02" 621 10 20 (by decide)).1

/-- C5: the time extractor decodes "八点" as 08:00, "八点半" as 08:30,
"十八点" as 18:00, "下午六点" as 18:00, "晚上12点" as 00:00 and "凌晨1点"
as 01:00; generally a period word among 下午/晚上/傍晚/夜里/中午 adds 12 to
a parsed hour strictly below 12, and 凌晨 maps a parsed hour of 12 to 0. -/
theorem claimC5 :
    findTimeMatches "八点".data = [⟨8, 0, 0, 2⟩] ∧
    findTimeMatches "八点半".data = [⟨8, 30, 0, 3⟩] ∧
    findTimeMatches "十八点".data = [⟨18, 0, 0, 3⟩] ∧
    findTimeMatches "下午六点".data = [⟨18, 0, 0, 4⟩] ∧
    findTimeMatches "晚上12点".data = [⟨0, 0, 0, 5⟩] ∧
    findTimeMatches "凌晨1点".data = [⟨1, 0, 0, 4⟩] ∧
    (∀ (hour : Nat) (p : List Char),
      hour < 12 →
      (p = "下午".data ∨ p = "晚上".data ∨ p = "傍晚".data ∨
       p = "夜里".data ∨ p = "中午".data) →
      applyPeriodHint hour p = hour + 12) ∧
    applyPeriodHint 12 "凌晨".data = 0 := by
  refine ⟨by decide, by decide, by decide, by decide, by decide, by decide, ?_, by decide⟩
  intro hour p hh hp
  rcases hp with rfl | rfl | rfl | rfl | rfl <;> interval_cases hour <;> decide

/-- C5 witness: the general period rule at hour 6 with 下午. -/
theorem claimC5_witness : applyPeriodHint 6 "下午".data = 6 + 12 :=
  claimC5.2.2.2.2.2.2.1 6 "下午".data (by decide) (Or.inl rfl)

/-- C8: a calendar notification is sent iff the event is timed (not
all-day), its start parses, now is in the window
`[start - minutesBefore minutes, start]`, the key `id|start` is non-blank
and not yet in the user's notified history; marking records the key, after
which the same event can never be notified again. -/
theorem claimC8 (dateParse : String → Option Int) (nowMs minutesBefore : Int)
    (notifiedKeys : List String) (e : CalendarEvent) (keep : Option Int) :
    (shouldNotifyEvent dateParse nowMs minutesBefore notifiedKeys e = true ↔
      (e.isAllDay = false ∧ ∃ startMs, eventStartMs dateParse e = some startMs ∧
        nowMs ≤ startMs ∧ startMs - nowMs ≤ minutesBefore * 60000 ∧
        trimWs (eventKey e).data ≠ [] ∧ eventKey e ∉ notifiedKeys)) ∧
    eventKey e ∈ markEventNotified notifiedKeys (eventKey e) keep ∧
    shouldNotifyEvent dateParse nowMs minutesBefore
      (markEventNotified notifiedKeys (eventKey e) keep) e = false := by
  have hmem : eventKey e ∈ markEventNotified notifiedKeys (eventKey e) keep := by
    simp only [markEventNotified]
    apply mem_drop_append
    have h50 : (50 : Int) ≤ max 50 (min 2000 (keep.getD 500)) := le_max_left _ _
    rw [List.length_append]
    simp only [List.length_singleton]
    omega
  refine ⟨?_, hmem, ?_⟩
  · simp only [shouldNotifyEvent]
    cases hall : e.isAllDay with
    | true => simp
    | false =>
      cases hstart : eventStartMs dateParse e with
      | none => simp
      | some startMs =>
        simp only [Bool.false_eq_true, if_false, Option.some.injEq]
        constructor
        · intro h
          by_cases h1 : startMs - nowMs < 0
          · rw [if_pos h1] at h
            exact Bool.noConfusion h
          rw [if_neg h1] at h
          by_cases h2 : startMs - nowMs > minutesBefore * 60000
          · rw [if_pos h2] at h
            exact Bool.noConfusion h
          rw [if_neg h2] at h
          by_cases h3 : trimWs (eventKey e).data = []
          · rw [if_pos h3] at h
            exact Bool.noConfusion h
          rw [if_neg h3] at h
          by_cases h4 : eventKey e ∈ notifiedKeys
          · rw [if_pos h4] at h
            exact Bool.noConfusion h
          exact ⟨trivial, startMs, rfl, by omega, by omega, h3, h4⟩
        · rintro ⟨-, s, rfl, hle, hub, hkey, hmem'⟩
          rw [if_neg (by omega), if_neg (by omega), if_neg hkey, if_neg hmem']
  · simp only [shouldNotifyEvent]
    cases e.isAllDay with
    | true => rfl
    | false =>
      cases eventStartMs dateParse e with
      | none => rfl
      | some startMs =>
        simp only [Bool.false_eq_true, if_false]
        by_cases h1 : startMs - nowMs < 0
        · rw [if_pos h1]
        rw [if_neg h1]
        by_cases h2 : startMs - nowMs > minutesBefore * 60000
        · rw [if_pos h2]
        rw [if_neg h2]
        by_cases h3 : trimWs (eventKey e).data = []
        · rw [if_pos h3]
        rw [if_neg h3, if_pos hmem]

set_option maxHeartbeats 1000000 in
/-- C4: classification of extractor outcomes: two or more time matches
always yield multiple_times; zero matches yield need_time for the reminder
extractor (carrying the cleaned residual) and, for the weather extractor,
need_both when the cleaned residual is empty and need_time carrying it
otherwise; exactly one match yields ok for the reminder extractor and, for
the weather extractor, need_place when the cleaned residual is empty and ok
carrying the time and residual otherwise. -/
theorem claimC4 (input : String) :
    (2 ≤ (findTimeMatches (normalizeText input.data)).length →
      parseReminderFromText input = .multiple_times ∧
      parsePlaceAndDailyTime input = .multiple_times) ∧
    (findTimeMatches (normalizeText input.data) = [] →
      (parseReminderFromText input =
        .need_time (String.mk (reminderResidualNoMatch (normalizeText input.data))) ∧
       (stripNoise (normalizeText input.data) = [] →
         parsePlaceAndDailyTime input = .need_both) ∧
       (stripNoise (normalizeText input.data) ≠ [] →
         parsePlaceAndDailyTime input =
           .need_time (String.mk (stripNoise (normalizeText input.data)))))) ∧
    (∀ m, findTimeMatches (normalizeText input.data) = [m] →
      (parseReminderFromText input =
        .ok m.hour m.minute (pad2s m.hour ++ ":" ++ pad2s m.minute)
          (parseDayOffset (normalizeText input.data))
          (String.mk (reminderResidualAt (normalizeText input.data) m)) ∧
       (weatherResidualAt (normalizeText input.data) m = [] →
         parsePlaceAndDailyTime input =
           .need_place (pad2s m.hour ++ ":" ++ pad2s m.minute)) ∧
       (weatherResidualAt (normalizeText input.data) m ≠ [] →
         parsePlaceAndDailyTime input =
           .ok (String.mk (weatherResidualAt (normalizeText input.data) m))
             (pad2s m.hour ++ ":" ++ pad2s m.minute)))) := by
  refine ⟨?_, ?_, ?_⟩
  · intro h2
    constructor
    · simp only [parseReminderFromText]
      rw [if_pos h2]
    · simp only [parsePlaceAndDailyTime]
      rw [if_pos h2]
  · intro h0
    refine ⟨?_, ?_, ?_⟩
    · simp only [parseReminderFromText]
      rw [h0]
      rfl
    · intro hres
      simp only [parsePlaceAndDailyTime]
      rw [h0, hres]
      rfl
    · intro hres
      obtain ⟨c, cs, hc⟩ := List.exists_cons_of_ne_nil hres
      simp only [parsePlaceAndDailyTime]
      rw [h0, hc]
      rfl
  · intro m h1
    refine ⟨?_, ?_, ?_⟩
    · simp only [parseReminderFromText]
      rw [h1]
      rfl
    · intro hres
      simp only [parsePlaceAndDailyTime]
      rw [h1]
      show (if weatherResidualAt (normalizeText input.data) m = [] then
          ParsePlaceTimeResult.need_place (pad2s m.hour ++ ":" ++ pad2s m.minute)
        else
          ParsePlaceTimeResult.ok (String.mk (weatherResidualAt (normalizeText input.data) m))
            (pad2s m.hour ++ ":" ++ pad2s m.minute)) = _
      rw [if_pos hres]
    · intro hres
      simp only [parsePlaceAndDailyTime]
      rw [h1]
      show (if weatherResidualAt (normalizeText input.data) m = [] then
          ParsePlaceTimeResult.need_place (pad2s m.hour ++ ":" ++ pad2s m.minute)
        else
          ParsePlaceTimeResult.ok (String.mk (weatherResidualAt (normalizeText input.data) m))
            (pad2s m.hour ++ ":" ++ pad2s m.minute)) = _
      rw [if_neg hres]

/-- C4 witness: "成都 10:20" has the single colon match 10:20 at span
[3,8) and a non-empty residual, so both extractors return ok. -/
theorem claimC4_witness :
    parseReminderFromText "成都 10:20" =
      ParseReminderResult.ok 10 20 (pad2s 10 ++ ":" ++ pad2s 20)
        (parseDayOffset (normalizeText "成都 10:20".data))
        (String.mk (reminderResidualAt (normalizeText "成都 10:20".data) ⟨10, 20, 3, 8⟩)) ∧
    parsePlaceAndDailyTime "成都 10:20" =
      ParsePlaceTimeResult.ok
        (String.mk (weatherResidualAt (normalizeText "成都 10:20".data) ⟨10, 20, 3, 8⟩))
        (pad2s 10 ++ ":" ++ pad2s 20) := by
  have h := (claimC4 "成都 10:20").2.2 ⟨10, 20, 3, 8⟩ (by decide)
  exact ⟨h.1, h.2.2 (by decide)⟩

/-- C7 (amended): day-offset composition
`addDaysToYmd (addDaysToYmd d 1) 1 = addDaysToYmd d 2` holds for every
date whose year is at least 0 (with a well-formed month and a positive
day), including the month and year boundaries Jan 31 -> Feb 1 and
Dec 31 -> Jan 1; it fails for years just below 0, where `Date.UTC`'s
two-digit-year remapping (0..99 -> 1900..1999) makes the intermediate
result land in the remapped band (see the counterexample). -/
theorem claimC7 (ymd : Ymd) (hy : 0 ≤ ymd.year) (hm1 : 1 ≤ ymd.month)
    (hm2 : ymd.month ≤ 12) (hd1 : 1 ≤ ymd.day) :
    addDaysToYmd (addDaysToYmd ymd 1) 1 = addDaysToYmd ymd 2 ∧
    addDaysToYmd ⟨2024, 1, 31⟩ 1 = ⟨2024, 2, 1⟩ ∧
    addDaysToYmd ⟨2024, 12, 31⟩ 1 = ⟨2025, 1, 1⟩ := by
  refine ⟨?_, by decide, by decide⟩
  have hY : 100 ≤ jsYearMap ymd.year := by
    unfold jsYearMap
    split_ifs <;> omega
  have h1 : addDaysToYmd ymd 1 =
      civilFromDays (daysFromCivil (jsYearMap ymd.year) ymd.month ymd.day + 1) := by
    rw [addDaysToYmd_eq, jsMakeDay_eq _ _ _ hm1 hm2]
  have hvalid := civilFromDays_valid (daysFromCivil (jsYearMap ymd.year) ymd.month ymd.day + 1)
  have hge : daysFromCivil 100 1 1 ≤
      daysFromCivil (jsYearMap ymd.year) ymd.month ymd.day + 1 := by
    have := daysFromCivil_ge_year100 (jsYearMap ymd.year) ymd.month ymd.day hY hm1 hm2 hd1
    omega
  have hy1 := civilFromDays_year_ge_100 _ hge
  have h2 : addDaysToYmd
      (civilFromDays (daysFromCivil (jsYearMap ymd.year) ymd.month ymd.day + 1)) 1 =
      civilFromDays (daysFromCivil (jsYearMap ymd.year) ymd.month ymd.day + 2) := by
    rw [addDaysToYmd_eq, jsMakeDay_eq _ _ _ hvalid.1 hvalid.2.1]
    have hmap : ∀ Y : Int, 100 ≤ Y → jsYearMap Y = Y := by
      intro Y hY'
      unfold jsYearMap
      rw [if_neg (by omega)]
    rw [hmap _ hy1, daysFromCivil_civilFromDays]
    congr 1
    ring
  have h3 : addDaysToYmd ymd 2 =
      civilFromDays (daysFromCivil (jsYearMap ymd.year) ymd.month ymd.day + 2) := by
    rw [addDaysToYmd_eq, jsMakeDay_eq _ _ _ hm1 hm2]
  rw [h1, h2, h3]

/-- C7 counterexample: from Dec 31 of year -1, adding one day twice ends
on Jan 2 of year 1900 (the intermediate year 0 is re-read by `Date.UTC`
as 1900), while adding two days at once ends on Jan 2 of year 0. -/
theorem claimC7_counterexample :
    addDaysToYmd (addDaysToYmd ⟨-1, 12, 31⟩ 1) 1 = ⟨1900, 1, 2⟩ ∧
    addDaysToYmd ⟨-1, 12, 31⟩ 2 = ⟨0, 1, 2⟩ ∧
    addDaysToYmd (addDaysToYmd ⟨-1, 12, 31⟩ 1) 1 ≠ addDaysToYmd ⟨-1, 12, 31⟩ 2 :=
  ⟨by decide, by decide, by decide⟩

/-- C7 witness: the amended law at Jan 31, 2024. -/
theorem claimC7_witness :
    addDaysToYmd (addDaysToYmd ⟨2024, 1, 31⟩ 1) 1 = addDaysToYmd ⟨2024, 1, 31⟩ 2 ∧
    addDaysToYmd ⟨2024, 1, 31⟩ 1 = ⟨2024, 2, 1⟩ ∧
    addDaysToYmd ⟨2024, 12, 31⟩ 1 = ⟨2025, 1, 1⟩ :=
  claimC7 ⟨2024, 1, 31⟩ (by decide) (by decide) (by decide) (by decide)

/-- C1 (amended): the round-trip law
`getZonedParts (zonedLocalToUtcMs parts) = parts` holds for requested
years at least 101 whenever the zone's offset is the same at the initial
guess and at the corrected instant (fixed-offset zones, and any wall-clock
request away from a DST transition); it fails inside a spring-forward gap,
where the 4-iteration correction loop oscillates and the returned instant
projects to a different wall-clock reading, and also for requested years
0-99, which `Date.UTC`'s two-digit-year rule reads as 1900-1999 so the
round trip returns the remapped year (see the counterexample for both). -/
theorem claimC1 (db : IanaDatabase) (tz : String) (f : Int → Int) (off : Int)
    (hf : db.zones tz = some f)
    (y m d h mi s : Int) (hy : 101 ≤ y) (hm1 : 1 ≤ m) (hm2 : m ≤ 12)
    (hd1 : 1 ≤ d) (hd2 : d ≤ daysInMonth y m)
    (hh0 : 0 ≤ h) (hh1 : h ≤ 23) (hmi0 : 0 ≤ mi) (hmi1 : mi ≤ 59)
    (hs0 : 0 ≤ s) (hs1 : s ≤ 59)
    (hob0 : -1440 ≤ off) (hob1 : off ≤ 1440)
    (hoff0 : f (dateUTC y (m - 1) d h mi s) = off)
    (hoff1 : f (dateUTC y (m - 1) d h mi s - off * 60000) = off) :
    getZonedParts db (zonedLocalToUtcMs db tz ⟨y, m, d, h, mi, s⟩) tz =
      ⟨y, m, d, h, mi, s⟩ :=
  zonedRoundTrip db tz f off hf y m d h mi s hy hm1 hm2 hd1 hd2
    hh0 hh1 hmi0 hmi1 hs0 hs1 hob0 hob1 hoff0 hoff1

/-- C1 counterexample: requesting 2021-03-14 02:30 in America/New_York
(inside the spring-forward gap 02:00-03:00) returns an instant that
projects back to 01:30, not 02:30, so the unrestricted round-trip law of
the spec is false on DST-transition dates; and requesting 0050-06-15
10:30 even in the fixed-offset zone UTC returns a year-1950 instant
(`Date.UTC` reads year 50 as 1950), so the round trip also fails for
years 0-99 away from any transition. -/
theorem claimC1_counterexample :
    getZonedParts sampleDb
        (zonedLocalToUtcMs sampleDb "America/New_York" ⟨2021, 3, 14, 2, 30, 0⟩)
        "America/New_York" = ⟨2021, 3, 14, 1, 30, 0⟩ ∧
    (⟨2021, 3, 14, 1, 30, 0⟩ : ZonedParts) ≠ ⟨2021, 3, 14, 2, 30, 0⟩ ∧
    getZonedParts sampleDb (zonedLocalToUtcMs sampleDb "UTC" ⟨50, 6, 15, 10, 30, 0⟩)
        "UTC" = ⟨1950, 6, 15, 10, 30, 0⟩ ∧
    (⟨1950, 6, 15, 10, 30, 0⟩ : ZonedParts) ≠ ⟨50, 6, 15, 10, 30, 0⟩ :=
  ⟨by decide, by decide, by decide, by decide⟩

/-- C1 witness: a summer date away from any transition in
America/New_York round-trips exactly. -/
theorem claimC1_witness :
    getZonedParts sampleDb
        (zonedLocalToUtcMs sampleDb "America/New_York" ⟨2021, 6, 15, 10, 30, 0⟩)
        "America/New_York" = ⟨2021, 6, 15, 10, 30, 0⟩ :=
  claimC1 sampleDb "America/New_York" nyOffset2021 (-240) sampleDb_ny
    2021 6 15 10 30 0 (by decide) (by decide) (by decide) (by decide) (by decide)
    (by decide) (by decide) (by decide) (by decide) (by decide) (by decide)
    (by decide) (by decide) (by decide) (by decide)

/-- C10: with day offset 0, a requested time-of-day strictly earlier than
the current local time-of-day targets the same wall-clock time on the next
calendar day, while a requested time equal to or later than the current
one targets today; consequently (over a fixed-offset zone) a bare time
equal to the current local minute schedules an instant that is
immediately due. -/
theorem claimC10 (db : IanaDatabase) (tz : String) (f : Int → Int) (off : Int)
    (hf : db.zones tz = some f) (hconst : ∀ t, f t = off)
    (hob0 : -1440 ≤ off) (hob1 : off ≤ 1440)
    (now : Int) (hy : 101 ≤ (getZonedParts db now tz).year) :
    (∀ (nowParts : ZonedParts) (hour minute : Int),
      (hour * 60 + minute < nowParts.hour * 60 + nowParts.minute →
        reminderDesired nowParts hour minute 0 =
          ⟨(addDaysToYmd (addDaysToYmd ⟨nowParts.year, nowParts.month, nowParts.day⟩ 0) 1).year,
           (addDaysToYmd (addDaysToYmd ⟨nowParts.year, nowParts.month, nowParts.day⟩ 0) 1).month,
           (addDaysToYmd (addDaysToYmd ⟨nowParts.year, nowParts.month, nowParts.day⟩ 0) 1).day,
           hour, minute, 0⟩) ∧
      (nowParts.hour * 60 + nowParts.minute ≤ hour * 60 + minute →
        reminderDesired nowParts hour minute 0 =
          ⟨(addDaysToYmd ⟨nowParts.year, nowParts.month, nowParts.day⟩ 0).year,
           (addDaysToYmd ⟨nowParts.year, nowParts.month, nowParts.day⟩ 0).month,
           (addDaysToYmd ⟨nowParts.year, nowParts.month, nowParts.day⟩ 0).day,
           hour, minute, 0⟩)) ∧
    isDue now
      (reminderScheduledAtMs db tz now (getZonedParts db now tz).hour
        (getZonedParts db now tz).minute 0) maxOverdueMs = true := by
  constructor
  · intro nowParts hour minute
    constructor
    · intro hlt
      simp only [reminderDesired]
      rw [if_pos ⟨trivial, hlt⟩]
    · intro hge
      simp only [reminderDesired]
      rw [if_neg (by omega)]
  · have hmap : ∀ Y : Int, 100 ≤ Y → jsYearMap Y = Y := by
      intro Y hY
      unfold jsYearMap
      rw [if_neg (by omega)]
    have hgz : getZonedParts db now tz = civilOfMs (now + off * 60000) := by
      rw [getZonedParts_valid db f tz hf now, hconst now]
    rw [hgz] at hy
    simp only [reminderScheduledAtMs]
    rw [hgz]
    set x := now + off * 60000 with hxdef
    have hpy : (civilOfMs x).year = (civilFromDays (x / 86400000)).year := rfl
    have hpm : (civilOfMs x).month = (civilFromDays (x / 86400000)).month := rfl
    have hpd : (civilOfMs x).day = (civilFromDays (x / 86400000)).day := rfl
    have hph : (civilOfMs x).hour = x % 86400000 / 3600000 := rfl
    have hpmin : (civilOfMs x).minute = x % 86400000 % 3600000 / 60000 := rfl
    have hv := civilFromDays_valid (x / 86400000)
    have hy' : 101 ≤ (civilFromDays (x / 86400000)).year := by
      rw [← hpy]
      exact hy
    have hb : addDaysToYmd ⟨(civilFromDays (x / 86400000)).year,
        (civilFromDays (x / 86400000)).month, (civilFromDays (x / 86400000)).day⟩ 0 =
        civilFromDays (x / 86400000) := by
      rw [addDaysToYmd_eq]
      simp only
      rw [hmap _ (by omega), jsMakeDay_eq _ _ _ hv.1 hv.2.1, daysFromCivil_civilFromDays]
      congr 1
      ring
    have hdesired : reminderDesired (civilOfMs x) (civilOfMs x).hour (civilOfMs x).minute 0 =
        ⟨(civilFromDays (x / 86400000)).year, (civilFromDays (x / 86400000)).month,
         (civilFromDays (x / 86400000)).day, (civilOfMs x).hour, (civilOfMs x).minute, 0⟩ := by
      simp only [reminderDesired]
      rw [if_neg (by omega)]
      rw [hpy, hpm, hpd, hb]
    have hh0 : 0 ≤ (civilOfMs x).hour := by
      rw [hph]
      omega
    have hh1 : (civilOfMs x).hour ≤ 23 := by
      rw [hph]
      omega
    have hmi0 : 0 ≤ (civilOfMs x).minute := by
      rw [hpmin]
      omega
    have hmi1 : (civilOfMs x).minute ≤ 59 := by
      rw [hpmin]
      omega
    have hsched := zonedLocalToUtcMs_stable db tz f off hf
      (civilFromDays (x / 86400000)).year (civilFromDays (x / 86400000)).month
      (civilFromDays (x / 86400000)).day (civilOfMs x).hour (civilOfMs x).minute 0
      hy' hv.1 hv.2.1 hv.2.2.1 hv.2.2.2 hh0 hh1 hmi0 hmi1 (by omega) (by omega)
      hob0 hob1 (hconst _) (hconst _)
    rw [hdesired, hsched,
      dateUTC_eq (civilFromDays (x / 86400000)).year (civilFromDays (x / 86400000)).month
        (civilFromDays (x / 86400000)).day (civilOfMs x).hour (civilOfMs x).minute 0
        (by omega) hv.1 hv.2.1,
      daysFromCivil_civilFromDays (x / 86400000), hph, hpmin]
    unfold isDue maxOverdueMs
    split_ifs with h1 h2
    · exfalso
      omega
    · exfalso
      omega
    · rfl

/-- C10 witness: at 2021-03-14 10:30 local time in fixed-offset
Asia/Shanghai, a bare request for the current local hour and minute is
scheduled immediately due. -/
theorem claimC10_witness :
    isDue 1615689000000
      (reminderScheduledAtMs sampleDb "Asia/Shanghai" 1615689000000
        (getZonedParts sampleDb 1615689000000 "Asia/Shanghai").hour
        (getZonedParts sampleDb 1615689000000 "Asia/Shanghai").minute 0) maxOverdueMs = true :=
  (claimC10 sampleDb "Asia/Shanghai" shanghaiOffset 480 sampleDb_sh (fun _ => rfl)
    (by decide) (by decide) 1615689000000 (by decide)).2

end Dingtalk
